/-
Verification of the stoichiometric combustion balancer
(`StoichiometricCombustion._update`) and the runtime selection registry
(`BaseClass` / `SelectionTable`) of the LibICE-post library.

The Python sources of `StoichiometricCombustion.py` and `BaseClass.py` are
embedded shallowly below.  The auxiliary chemistry value types
(`Mixture`, `Molecule`, the abstract `ReactionModel` base class and the
`Utilities` error helpers) are not part of the sources at hand; their
definitions are modelled from the specification (section 3 "DATA MODEL",
section 4.2 state machine, section 7 error propagation) and are marked
as such in their doc comments.

Numeric note: the Python code computes with IEEE doubles; the embedding
uses exact rationals, and `math.isclose` is embedded with its documented
semantics (relative tolerance 1e-9) over the rationals.
-/
import Mathlib

namespace LibICE

/-- A chemical specie is identified by its name (spec: "Molecule: identity
(name) ...; equality by name"). -/
abbrev Specie := String

/-- Modelled from the spec: a `Mixture` is an ordered collection of
(Molecule, moleFraction) pairs. -/
abbrev Mixture := List (Specie × ℚ)

/-- The list of species names of a mixture. -/
def Mixture.keys (m : Mixture) : List Specie := m.map Prod.fst

/-- Modelled from the spec: membership test by molecule (`specie in mixture`
in the Python sources). -/
def Mixture.hasSpecie (m : Mixture) (s : Specie) : Bool :=
  m.any (fun p => p.1 = s)

/-- Modelled from the spec: indexed lookup of the mole fraction
(`mixture[specie]["X"]` in the Python sources).  A specie that is absent
is given fraction 0. -/
def Mixture.X (m : Mixture) (s : Specie) : ℚ :=
  ((m.find? (fun p => p.1 = s)).map Prod.snd).getD 0

/-- Modelled from the spec: `dilute(other, fraction, "mole")` blends in
another mixture at a given mole fraction, renormalizing: every fraction of
`m` is scaled by `1 - xf`, every fraction of `other` is scaled by `xf`, and
entries for the same specie are merged.  New species are appended after the
existing ones, preserving order. -/
def Mixture.dilute (m : Mixture) (other : Mixture) (xf : ℚ) : Mixture :=
  (m.map (fun p => (p.1, (1 - xf) * p.2 + xf * Mixture.X other p.1)))
    ++ ((other.filter (fun p => !(Mixture.hasSpecie m p.1))).map
        (fun p => (p.1, xf * p.2)))

/-- Modelled from the spec: diluting with a single molecule is diluting
with the pure one-specie mixture. -/
def Mixture.diluteMol (m : Mixture) (s : Specie) (xf : ℚ) : Mixture :=
  Mixture.dilute m [(s, 1)] xf

/-- Modelled from the spec: `extract(subset)` returns the sub-mixture
restricted to the given species, renormalized. -/
def Mixture.extract (m : Mixture) (names : List Specie) : Mixture :=
  let sub := m.filter (fun p => names.contains p.1)
  let tot := (sub.map Prod.snd).sum
  sub.map (fun p => (p.1, p.2 / tot))

/-- Modelled from the spec: `mixtureBlend` blends a family of mixtures at
given mole fractions: the result contains every specie occurring in any of
the mixtures, at the weighted sum of its fractions. -/
def mixtureBlend (mxs : List (Mixture × ℚ)) : Mixture :=
  let species := ((mxs.map (fun p => Mixture.keys p.1)).flatten).dedup
  species.map (fun s => (s, (mxs.map (fun p => p.2 * Mixture.X p.1 s)).sum))

/-- A reaction is an immutable pair of mixtures (spec section 3). -/
structure Reaction where
  reactants : Mixture
  products : Mixture
deriving DecidableEq, Repr

/-- The global reference data of the balancer: the configured oxidizer
(`self._oxidizer`), the global fuel registry
(`database.chemistry.specie.Fuels`) and the oxidation-reaction database
(`database.chemistry.reactions[StoichiometricReaction]`, embedded as an
ordered list since the Python code iterates it in order). -/
structure Config where
  oxidizer : Specie
  Fuels : List Specie
  reactions : List Reaction
deriving DecidableEq, Repr

/-- A Python exception, embedded as its chain of messages (most recent
first; the tail is the `__context__` chain).  Modelled from the spec:
failures "bubble up as typed failures annotated with the operation and
class in which they occurred". -/
abbrev PyErr := List String

/-- `StoichiometricCombustion._updateFuels` (source lines 135-145): the
fuels are the species of the reactants whose name is listed in the global
fuel registry, in reactant order. -/
def updateFuels (cfg : Config) (reactants : Mixture) : List Specie :=
  (reactants.map Prod.fst).filter (fun s => cfg.Fuels.contains s)

/-- The inner search of `_update` (source lines 168-175): the first
reaction of the database whose reactants contain both the fuel and the
oxidizer. -/
def findOxReaction (cfg : Config) (f : Specie) : Option Reaction :=
  cfg.reactions.find?
    (fun r => Mixture.hasSpecie r.reactants f &&
              Mixture.hasSpecie r.reactants cfg.oxidizer)

/-- The error message of `_update` source line 177 (apostrophes of the
original f-string elided; the typo "rections" is the source's own). -/
def oxNotFoundMsg (cfg : Config) (f : Specie) : String :=
  "Oxidation reaction not found in database rections.StoichiometricReaction for the couple (fuel, oxidizer) = ("
    ++ f ++ ", " ++ cfg.oxidizer ++ ")"

/-- `_update` source lines 166-177: look up an oxidation reaction for every
fuel, raising at the first fuel with no matching reaction. -/
def lookupOxReactions (cfg : Config) : List Specie → Except PyErr (List (Specie × Reaction))
  | [] => .ok []
  | f :: fs =>
    match findOxReaction cfg f with
    | none => .error [oxNotFoundMsg cfg f]
    | some r =>
      match lookupOxReactions cfg fs with
      | .error e => .error e
      | .ok rest => .ok ((f, r) :: rest)

/-- `_update` source lines 193-206: a located reaction is active iff all of
its reactants are present in the mixture, the oxidizer is among its
reactants, and at least one identified fuel is among its reactants. -/
def isActiveFor (cfg : Config) (reactants : Mixture) (fuels : List Specie)
    (r : Reaction) : Bool :=
  r.reactants.all (fun sR => Mixture.hasSpecie reactants sR.1) &&
  Mixture.hasSpecie r.reactants cfg.oxidizer &&
  fuels.any (fun f => Mixture.hasSpecie r.reactants f)

/-- `_update` source lines 184-217: a specie of the reactants is reacting
iff some located oxidation reaction contains it as a reactant and is
active. -/
def specieReacts (cfg : Config) (reactants : Mixture) (fuels : List Specie)
    (oxReacts : List (Specie × Reaction)) (s : Specie) : Bool :=
  oxReacts.any (fun fr =>
    Mixture.hasSpecie fr.2.reactants s && isActiveFor cfg reactants fuels fr.2)

/-- `_update` source lines 216-222 and 227-233: incremental construction of
a renormalized sub-mixture, one specie at a time, by dilution at fraction
`X / (xAcc + X)`. -/
def addSpecie (acc : Option Mixture × ℚ) (sx : Specie × ℚ) : Option Mixture × ℚ :=
  match acc with
  | (none, x) => (some [(sx.1, 1)], x + sx.2)
  | (some m, x) => (some (Mixture.diluteMol m sx.1 (sx.2 / (x + sx.2))), x + sx.2)

/-- `_update` source lines 179-222: the reacting sub-mixture (renormalized)
and its total mole fraction `xReact` in the original reactants. -/
def reactingMixOf (cfg : Config) (reactants : Mixture) (fuels : List Specie)
    (oxReacts : List (Specie × Reaction)) : Option Mixture × ℚ :=
  (reactants.filter (fun sx => specieReacts cfg reactants fuels oxReacts sx.1)).foldl
    addSpecie (none, 0)

/-- The Python `TypeError` raised by `specie["specie"] in reactingMix` when
`reactingMix` is `None`. -/
def noneContainsMsg : String :=
  "TypeError: argument of type NoneType is not iterable"

/-- `_update` source lines 224-233: the inert sub-mixture.  NOTE: the
membership test `specie["specie"] in reactingMix` is executed before the
`reactingMix is None` guard of line 245, so with a non-empty reactant
mixture and no reacting specie the first loop iteration raises a
`TypeError`. -/
def inertsOf (reactants : Mixture) (reactingMixO : Option Mixture) :
    Except PyErr (Option Mixture × ℚ) :=
  reactants.foldlM
    (fun acc sx =>
      match reactingMixO with
      | none => .error [noneContainsMsg]
      | some rm =>
        if Mixture.hasSpecie rm sx.1 then .ok acc else .ok (addSpecie acc sx))
    (none, 0)

/-- Lookup of the oxidation reaction located for a fuel
(`oxReactions[f.name]` in the source). -/
def oxFor (oxReacts : List (Specie × Reaction)) (f : Specie) : Reaction :=
  ((oxReacts.find? (fun p => p.1 = f)).map Prod.snd).getD ⟨[], []⟩

/-- `_update` source lines 284-286: the (n+1) x (n+1) matrix of the
stoichiometric blend solve, as a list of rows.  Row `i < n` is the `i`-th
row of `diag(oxReactions[f].reactants[f]["X"])` extended with the entry
`-fuelMix[f]["X"]`; the last row is `[1, ..., 1, 0]`. -/
def buildM (fuels : List Specie) (oxReacts : List (Specie × Reaction))
    (fuelMix : Mixture) : List (List ℚ) :=
  (fuels.enum.map (fun p =>
    (fuels.enum.map (fun q =>
      if p.1 = q.1 then Mixture.X (oxFor oxReacts p.2).reactants p.2 else 0))
      ++ [-(Mixture.X fuelMix p.2)]))
    ++ [List.replicate fuels.length 1 ++ [0]]

/-- `_update` source line 287: the right-hand side `[0, ..., 0, 1]`. -/
def buildV (fuels : List Specie) : List ℚ :=
  List.replicate fuels.length 0 ++ [1]

/-- Dot product of two rational vectors. -/
def dotQ : List ℚ → List ℚ → ℚ
  | [], _ => 0
  | _, [] => 0
  | a :: as, b :: bs => a * b + dotQ as bs

/-- Gaussian elimination with back substitution, fuelled by the row count.
Modelled from the spec: `np.linalg.solve` performs a standard dense linear
solve and raises on a singular system; on a nonsingular system the naive
elimination below returns the same (unique) solution, and a zero pivot
stands in for singularity. -/
def gaussSolveAux : Nat → List (List ℚ) → List ℚ → Option (List ℚ)
  | _, [], _ => some []
  | 0, _ :: _, _ => none
  | n + 1, (p :: ps) :: rest, v0 :: vrest =>
    if p = 0 then none
    else
      let pr := rest.zip vrest
      let rest2 := pr.map (fun rv =>
        List.zipWith (fun x y => x - (rv.1.headD 0 / p) * y) rv.1.tail ps)
      let v2 := pr.map (fun rv => rv.2 - (rv.1.headD 0 / p) * v0)
      match gaussSolveAux n rest2 v2 with
      | none => none
      | some xs => some (((v0 - dotQ ps xs) / p) :: xs)
  | _ + 1, _ :: _, _ => none

/-- `np.linalg.solve(M, v)` (source line 288). -/
def gaussSolve (m : List (List ℚ)) (v : List ℚ) : Option (List ℚ) :=
  gaussSolveAux m.length m v

/-- `math.isclose` with its default tolerances (rel_tol = 1e-9,
abs_tol = 0), over the rationals. -/
def isclose (a b : ℚ) : Prop :=
  |a - b| ≤ (1 / 1000000000) * max |a| |b|

instance (a b : ℚ) : Decidable (isclose a b) := by
  unfold isclose; infer_instance

/-- The error raised by `np.linalg.solve` on a singular matrix. -/
def singularMsg : String := "LinAlgError: Singular matrix"

/-- `_update` source lines 292-297: the stoichiometric reacting mixture,
the blend of the oxidation reactions' reactant mixtures at the solved
weights (the solution vector without its trailing consistency factor). -/
def stoichReactingMixOf (fuels : List Specie) (oxReacts : List (Specie × Reaction))
    (sol : List ℚ) : Mixture :=
  mixtureBlend ((fuels.map (fun f => (oxFor oxReacts f).reactants)).zip sol.dropLast)

/-- `_update` source lines 305-310: the raw stoichiometric products, the
blend of the oxidation reactions' product mixtures at the solved weights. -/
def rawStoichProds (fuels : List Specie) (oxReacts : List (Specie × Reaction))
    (sol : List ℚ) : Mixture :=
  mixtureBlend ((fuels.map (fun f => (oxFor oxReacts f).products)).zip sol.dropLast)

/-- `_update` source lines 315-325: the lean/rich correction.  If the
actual oxidizer fraction of the reacting mixture and the stoichiometric one
are not float-close, the raw products are diluted with pure oxidizer at the
excess fraction (actual above ideal) or with the fuel-only sub-mixture
(ideal above actual). -/
def leanRichCorrected (cfg : Config) (fuelMix reactingMix : Mixture)
    (fuels : List Specie) (oxReacts : List (Specie × Reaction)) (sol : List ℚ) : Mixture :=
  let xS := Mixture.X (stoichReactingMixOf fuels oxReacts sol) cfg.oxidizer
  let xA := Mixture.X reactingMix cfg.oxidizer
  if isclose xS xA then rawStoichProds fuels oxReacts sol
  else if xA > xS then
    Mixture.dilute (rawStoichProds fuels oxReacts sol) [(cfg.oxidizer, 1)] (xA - xS)
  else
    Mixture.dilute (rawStoichProds fuels oxReacts sol) fuelMix (xS - xA)

/-- `_update` source lines 330-332: dilution of the products with the inert
sub-mixture at its original total mole fraction, when inerts exist. -/
def inertStep (inertsO : Option Mixture) (xInert : ℚ) (m : Mixture) : Mixture :=
  match inertsO with
  | none => m
  | some inerts => Mixture.dilute m inerts xInert

/-- The algorithmic body of `StoichiometricCombustion._update` (source
lines 155-340), run when the cached reactants are out of date: fuel
identification, reaction lookup, reacting/inert partition, stoichiometric
blend solve, lean/rich correction and inert recombination.  Returns the
new products mixture. -/
def stoichProducts (cfg : Config) (reactants : Mixture) : Except PyErr Mixture :=
  match lookupOxReactions cfg (updateFuels cfg reactants) with
  | .error e => .error e
  | .ok oxReacts =>
    match reactingMixOf cfg reactants (updateFuels cfg reactants) oxReacts with
    | (reactingMixO, _xReact) =>
      match inertsOf reactants reactingMixO with
      | .error e => .error e
      | .ok (inertsO, xInert) =>
        match reactingMixO with
        | none => .ok reactants
        | some reactingMix =>
          match gaussSolve
              (buildM (updateFuels cfg reactants) oxReacts
                (Mixture.extract reactants (updateFuels cfg reactants)))
              (buildV (updateFuels cfg reactants)) with
          | none => .error [singularMsg]
          | some sol =>
            .ok (inertStep inertsO xInert
              (leanRichCorrected cfg
                (Mixture.extract reactants (updateFuels cfg reactants))
                reactingMix (updateFuels cfg reactants) oxReacts sol))

/-- The state of a `ReactionModel` instance: the cached reactants and the
cached products.  Modelled from the spec (section 3 "ReactionModel" and the
section 4.2 state machine). -/
structure RModel where
  reactants : Mixture
  products : Mixture
deriving DecidableEq, Repr

/-- Modelled from the spec: `ReactionModel._update` (the `super()._update`
call of source line 153) stores the new reactants and reports `true`
("already up to date") iff they equal the cached ones by value. -/
def baseUpdate (st : RModel) (new : Mixture) : RModel × Bool :=
  if new = st.reactants then (st, true)
  else ({ st with reactants := new }, false)

/-- `StoichiometricCombustion._update` (source lines 148-340): the early
up-to-date check, then the balancing algorithm.  Returns the new model
state and the "already up to date" flag. -/
def stoichUpdate (cfg : Config) (st : RModel) (new : Mixture) :
    Except PyErr (RModel × Bool) :=
  match baseUpdate st new with
  | (st1, true) => .ok (st1, true)
  | (st1, false) =>
    match stoichProducts cfg st1.reactants with
    | .error e => .error e
    | .ok prods => .ok ({ st1 with products := prods }, false)

/-! ### The runtime selection registry (`BaseClass.py`) -/

/-- A Python class, as far as the selection registry observes it: its name
(`cls.__name__`), the names of the classes it derives from (deciding
`issubclass`), and whether it is abstract (`inspect.isabstract`). -/
structure Cls where
  name : String
  supers : List String
  isAbstract : Bool
deriving DecidableEq, Repr

/-- `issubclass(c, base)`: a class is a subclass of itself and of every
class it derives from. -/
def isSubclassOf (c : Cls) (base : String) : Bool :=
  c.name = base || c.supers.contains base

/-- `SelectionTable` (source lines 156-264): the owning base class
(`self.__type`) and the name-to-class database (`self.__db`), in insertion
order. -/
structure SelTable where
  ownerName : String
  db : List (String × Cls)
deriving DecidableEq, Repr

/-- `SelectionTable.__contains__` (source lines 208-216). -/
def SelTable.mem (tbl : SelTable) (typeName : String) : Bool :=
  tbl.db.any (fun p => p.1 = typeName)

/-- Lookup in the database (the dictionary access of `__getitem__`). -/
def SelTable.lookup (tbl : SelTable) (typeName : String) : Option Cls :=
  (tbl.db.find? (fun p => p.1 = typeName)).map Prod.snd

/-- Modelled from the spec: `Utilities.fatalErrorInClass` propagates a
typed failure annotated with the operation in which it occurred, chaining
the nested error. -/
def fatalError (whereMsg msg : String) (ctx : PyErr) : PyErr :=
  (whereMsg ++ ": " ++ msg) :: ctx

/-- The `{:40s}` left-justified padding of the table formatting. -/
def padTo40 (s : String) : String :=
  s ++ String.mk (List.replicate (40 - s.length) ' ')

/-- The per-class annotation of the table listing (source lines 260-261). -/
def abstractTag (c : Cls) : String :=
  if c.isAbstract then "(Abstract class)" else ""

/-- The error message of `SelectionTable.check` (source lines 258-263):
it names the missing type and lists every available class of the table
(apostrophes of the original f-string elided). -/
def checkMsg (tbl : SelTable) (typeName : String) : String :=
  "No class " ++ typeName ++ " found in selection table for class "
    ++ tbl.ownerName ++ ". Available classes are:"
    ++ String.join (tbl.db.map (fun p => "\n\t" ++ padTo40 p.1 ++ abstractTag p.2))

/-- `SelectionTable.check` (source lines 250-264): raises a `ValueError`
carrying the listing message when the name is absent. -/
def SelTable.check (tbl : SelTable) (typeName : String) : Except PyErr Bool :=
  if tbl.mem typeName then .ok true
  else .error [checkMsg tbl typeName]

/-- The message of the `ValueError` of `__getitem__` (source line 226). -/
def getItemMsg (typeName : String) : String :=
  "Class " ++ typeName ++ " not found in selection table."

/-- `SelectionTable.__getitem__` (source lines 219-230): the inner
`ValueError` is caught and re-raised through `fatalErrorInClass`. -/
def SelTable.getItem (tbl : SelTable) (typeName : String) : Except PyErr Cls :=
  match tbl.lookup typeName with
  | some c => .ok c
  | none => .error (fatalError "SelectionTable.__get__" "Argument checking failed"
      [getItemMsg typeName])

/-- The constructed instance, as observed by the caller of the selector:
the concrete class whose `fromDictionary` produced it, and the dictionary
it was built from.  (Modelled from the spec: every pluggable family
exposes a classmethod `fromConfig(config) -> instance`.) -/
structure Instance where
  ofType : String
  args : List String
deriving DecidableEq, Repr

/-- `BaseClass.selector` (source lines 55-84).  NOTE on the failure path:
the `except` handler of line 82 formats its message by looking the missing
name up again (`cls.selectionTable()[typeName].__name__`); for an
unregistered name that lookup itself raises, and the exception leaving the
handler carries the original check error as its implicit context
(`__context__`), which is how Python chains an exception raised while
handling another.  The success path models the concrete class's
`fromDictionary` as returning an instance of that class built from the
dictionary (`dKeys` are the keys of the configuration dictionary). -/
def selector (tbl : SelTable) (typeName : String) (dKeys : List String) :
    Except PyErr Instance :=
  match tbl.check typeName with
  | .error e1 =>
    match tbl.getItem typeName with
    | .error e2 => .error (e2 ++ e1)
    | .ok c => .error (fatalError "BaseClass.selector"
        ("Failed constructing instance of type " ++ c.name) e1)
  | .ok _ =>
    match tbl.getItem typeName with
    | .error e2 => .error e2
    | .ok c => .ok ⟨c.name, dKeys⟩

/-- The message of `SelectionTable.add` when the name is taken (source
line 247). -/
def addPresentMsg (typeName : String) : String :=
  "Subclass " ++ typeName
    ++ " already present in selection table, cannot add to selection table."

/-- The message of `SelectionTable.add` when the class is not derived from
the owner (source line 245). -/
def addNotDerivedMsg (tbl : SelTable) (c : Cls) : String :=
  "Class " ++ c.name ++ " is not derived from " ++ tbl.ownerName
    ++ "; cannot add " ++ c.name ++ " to runtime selection table."

/-- `SelectionTable.add` (source lines 233-247): validate, then either
insert the single new entry or report a fatal error leaving the database
untouched.  Returns the table after the call together with the error, if
any. -/
def SelTable.add (tbl : SelTable) (c : Cls) : SelTable × Option PyErr :=
  if tbl.mem c.name then
    (tbl, some (fatalError "SelectionTable.add" (addPresentMsg c.name) []))
  else if isSubclassOf c tbl.ownerName then
    ({ tbl with db := tbl.db ++ [(c.name, c)] }, none)
  else
    (tbl, some (fatalError "SelectionTable.add" (addNotDerivedMsg tbl c) []))

/-! ### `StoichiometricCombustion.fromDictionary` (source lines 78-108) -/

/-- A Python value stored in a configuration dictionary. -/
inductive PyVal where
  | mix (m : Mixture)
  | mol (name : Specie)
  | txt (s : String)
deriving DecidableEq, Repr

/-- A Python `dict` with string keys, in insertion order (Python inserts
new keys at the end). -/
abbrev DictV := List (String × PyVal)

def DictV.hasKey (d : DictV) (k : String) : Bool := d.any (fun p => p.1 = k)

def DictV.get (d : DictV) (k : String) : Option PyVal :=
  (d.find? (fun p => p.1 = k)).map Prod.snd

/-- The default oxidizer `database.chemistry.specie.Molecules.O2`. -/
def O2default : PyVal := .mol "O2"

/-- `StoichiometricCombustion.fromDictionary` (source lines 78-108): check
the mandatory "reactants" entry, default the missing "oxidizer" entry by
writing it INTO the caller's dictionary (line 98 mutates the argument),
then construct.  Returns the constructed (reactants, oxidizer) pair
together with the dictionary as the caller observes it after the call.
(The `checkType` of the oxidizer against `Molecule` is source line 122;
the reactants type check of the base-class constructor is modelled from
the spec.) -/
def stoichFromDictionary (d : DictV) : Except PyErr ((Mixture × Specie) × DictV) :=
  if !(DictV.hasKey d "reactants") then
    .error (fatalError "StoichiometricCombustion.fromDictionary"
      "Failed construction from dictionary"
      ["Mandatory entry reactants not found in dictionary."])
  else
    let d1 := if DictV.hasKey d "oxidizer" then d else d ++ [("oxidizer", O2default)]
    match DictV.get d1 "reactants", DictV.get d1 "oxidizer" with
    | some (.mix m), some (.mol ox) => .ok ((m, ox), d1)
    | _, _ => .error (fatalError "StoichiometricCombustion.fromDictionary"
        "Failed construction from dictionary" ["Argument checking failed"])

/-! ### Concrete chemistry fixtures used by the witnesses -/

/-- The stoichiometric oxidation of methane, CH4 + 2 O2 -> CO2 + 2 H2O,
as mole-fraction mixtures. -/
def rCH4 : Reaction :=
  ⟨[("CH4", 1/3), ("O2", 2/3)], [("CO2", 1/3), ("H2O", 2/3)]⟩

/-- The stoichiometric oxidation of hydrogen, H2 + 1/2 O2 -> H2O. -/
def rH2 : Reaction :=
  ⟨[("H2", 2/3), ("O2", 1/3)], [("H2O", 1)]⟩

/-- A test configuration: oxidizer O2, fuels CH4 and H2, and the two
oxidation reactions above. -/
def cfgTest : Config := ⟨"O2", ["CH4", "H2"], [rCH4, rH2]⟩

/-- The matrix as described by the SPECIFICATION sentence under scrutiny
("diagonal entries M_ii equal to the oxidizer mole fraction in reaction
i's reactants"): identical to `buildM` except that the diagonal holds the
oxidizer mole fraction of each reaction's reactants instead of the fuel
one.  Used only to compare the spec's wording with the source. -/
def buildM_claim (oxidizer : Specie) (fuels : List Specie)
    (oxReacts : List (Specie × Reaction)) (fuelMix : Mixture) : List (List ℚ) :=
  (fuels.enum.map (fun p =>
    (fuels.enum.map (fun q =>
      if p.1 = q.1 then Mixture.X (oxFor oxReacts p.2).reactants oxidizer else 0))
      ++ [-(Mixture.X fuelMix p.2)]))
    ++ [List.replicate fuels.length 1 ++ [0]]

/-- A configuration whose fuel registry knows ethane but whose reaction
database has no ethane oxidation reaction. -/
def cfgMissing : Config := ⟨"O2", ["CH4", "C2H6"], [rCH4]⟩

/-- An abstract base class fixture for the registry claims. -/
def clsBase : Cls := ⟨"ReactionModel", [], true⟩

/-- A concrete subclass fixture for the registry claims. -/
def clsStoich : Cls := ⟨"StoichiometricCombustion", ["ReactionModel"], false⟩

/-- A selection table seeded, as `createRuntimeSelectionTable` does, with
the owning base class itself. -/
def tblReg : SelTable := ⟨"ReactionModel", [("ReactionModel", clsBase)]⟩

/-! ### General lemmas about the mixture operations -/

theorem X_nil (s : Specie) : Mixture.X [] s = 0 := rfl

theorem X_cons (a : Specie) (b : ℚ) (m : Mixture) (s : Specie) :
    Mixture.X ((a, b) :: m) s = if a = s then b else Mixture.X m s := by
  by_cases h : a = s <;> simp [Mixture.X, List.find?_cons, h]

theorem hasSpecie_nil (s : Specie) : Mixture.hasSpecie [] s = false := rfl

theorem hasSpecie_cons (a : Specie) (b : ℚ) (m : Mixture) (s : Specie) :
    Mixture.hasSpecie ((a, b) :: m) s = (decide (a = s) || Mixture.hasSpecie m s) := by
  simp [Mixture.hasSpecie]

theorem X_eq_zero_of_not_hasSpecie {m : Mixture} {s : Specie}
    (h : Mixture.hasSpecie m s = false) : Mixture.X m s = 0 := by
  induction m with
  | nil => rfl
  | cons q t ih =>
    obtain ⟨a, b⟩ := q
    rw [hasSpecie_cons] at h
    rcases Bool.or_eq_false_iff.mp h with ⟨h1, h2⟩
    rw [X_cons, if_neg (by simpa using h1)]
    exact ih h2

/-- The mole fraction of a key-preserving map. -/
theorem X_map_keyfun (g : Specie → ℚ → ℚ) (m : Mixture) (s : Specie) :
    Mixture.X (m.map (fun p => (p.1, g p.1 p.2))) s =
      if Mixture.hasSpecie m s then g s (Mixture.X m s) else 0 := by
  induction m with
  | nil => simp [Mixture.X, Mixture.hasSpecie]
  | cons q t ih =>
    obtain ⟨a, b⟩ := q
    by_cases h : a = s
    · subst h
      simp [X_cons, hasSpecie_cons]
    · simp [X_cons, hasSpecie_cons, h, ih]

theorem hasSpecie_map_keyfun (g : Specie → ℚ → ℚ) (m : Mixture) (s : Specie) :
    Mixture.hasSpecie (m.map (fun p => (p.1, g p.1 p.2))) s = Mixture.hasSpecie m s := by
  simp [Mixture.hasSpecie, List.any_map, Function.comp_def]

theorem X_append (m1 m2 : Mixture) (s : Specie) :
    Mixture.X (m1 ++ m2) s =
      if Mixture.hasSpecie m1 s then Mixture.X m1 s else Mixture.X m2 s := by
  induction m1 with
  | nil => simp [Mixture.hasSpecie]
  | cons q t ih =>
    obtain ⟨a, b⟩ := q
    by_cases h : a = s
    · simp [X_cons, hasSpecie_cons, h]
    · simp [X_cons, hasSpecie_cons, h, ih]

/-- Filtering by a predicate that keeps every entry keyed `s` preserves the
mole fraction of `s`. -/
theorem X_filter_of_keeps (m : Mixture) (pred : Specie × ℚ → Bool) (s : Specie)
    (h : ∀ q ∈ m, q.1 = s → pred q = true) :
    Mixture.X (m.filter pred) s = Mixture.X m s := by
  induction m with
  | nil => rfl
  | cons q t ih =>
    obtain ⟨a, b⟩ := q
    have ht : ∀ p ∈ t, p.1 = s → pred p = true := fun p hp => h p (List.mem_cons_of_mem _ hp)
    by_cases ha : a = s
    · rw [List.filter_cons, if_pos (h (a, b) (List.mem_cons_self _ _) ha), X_cons,
        if_pos ha, X_cons, if_pos ha]
    · rw [List.filter_cons]
      by_cases hp : pred (a, b) = true
      · rw [if_pos hp, X_cons, if_neg ha, X_cons, if_neg ha, ih ht]
      · rw [if_neg hp, ih ht, X_cons, if_neg ha]

theorem hasSpecie_filter_of_keeps (m : Mixture) (pred : Specie × ℚ → Bool) (s : Specie)
    (h : ∀ q ∈ m, q.1 = s → pred q = true) :
    Mixture.hasSpecie (m.filter pred) s = Mixture.hasSpecie m s := by
  induction m with
  | nil => rfl
  | cons q t ih =>
    obtain ⟨a, b⟩ := q
    have ht : ∀ p ∈ t, p.1 = s → pred p = true := fun p hp => h p (List.mem_cons_of_mem _ hp)
    by_cases ha : a = s
    · rw [List.filter_cons, if_pos (h (a, b) (List.mem_cons_self _ _) ha), hasSpecie_cons,
        hasSpecie_cons, ih ht]
    · rw [List.filter_cons]
      by_cases hp : pred (a, b) = true
      · rw [if_pos hp, hasSpecie_cons, hasSpecie_cons, ih ht]
      · rw [if_neg hp, ih ht, hasSpecie_cons, decide_eq_false ha, Bool.false_or]

/-- Pointwise semantics of `dilute`: the fraction of every specie of the
diluted mixture is the convex combination of its fractions in the two
constituents. -/
theorem dilute_X (m other : Mixture) (xf : ℚ) (s : Specie) :
    Mixture.X (Mixture.dilute m other xf) s =
      (1 - xf) * Mixture.X m s + xf * Mixture.X other s := by
  unfold Mixture.dilute
  rw [X_append]
  by_cases h : Mixture.hasSpecie m s = true
  · rw [if_pos (by rw [hasSpecie_map_keyfun (fun k v => (1 - xf) * v + xf * Mixture.X other k)]; exact h)]
    rw [X_map_keyfun (fun k v => (1 - xf) * v + xf * Mixture.X other k), if_pos h]
  · have h' : Mixture.hasSpecie m s = false := by simpa using h
    rw [if_neg (by rw [hasSpecie_map_keyfun (fun k v => (1 - xf) * v + xf * Mixture.X other k)]; simp [h']),
      X_map_keyfun (fun k v => xf * v), X_eq_zero_of_not_hasSpecie h', mul_zero, zero_add,
      hasSpecie_filter_of_keeps _ _ _ (fun q _ hq => by simp [hq, h']),
      X_filter_of_keeps _ _ _ (fun q _ hq => by simp [hq, h'])]
    by_cases ho : Mixture.hasSpecie other s = true
    · rw [if_pos ho]
    · have ho' : Mixture.hasSpecie other s = false := by simpa using ho
      rw [if_neg ho, X_eq_zero_of_not_hasSpecie ho', mul_zero]

theorem hasSpecie_append (m1 m2 : Mixture) (s : Specie) :
    Mixture.hasSpecie (m1 ++ m2) s = (Mixture.hasSpecie m1 s || Mixture.hasSpecie m2 s) := by
  simp [Mixture.hasSpecie, List.any_append]

/-- The species of a diluted mixture are those of the two constituents. -/
theorem hasSpecie_dilute (m other : Mixture) (xf : ℚ) (s : Specie) :
    Mixture.hasSpecie (Mixture.dilute m other xf) s =
      (Mixture.hasSpecie m s || Mixture.hasSpecie other s) := by
  unfold Mixture.dilute
  rw [hasSpecie_append, hasSpecie_map_keyfun (fun k v => (1 - xf) * v + xf * Mixture.X other k),
    hasSpecie_map_keyfun (fun k v => xf * v)]
  by_cases h : Mixture.hasSpecie m s = true
  · simp [h]
  · have h' : Mixture.hasSpecie m s = false := by simpa using h
    rw [hasSpecie_filter_of_keeps _ _ _ (fun q _ hq => by simp [hq, h']), h']

theorem hasSpecie_iff_mem_keys (m : Mixture) (s : Specie) :
    Mixture.hasSpecie m s = true ↔ s ∈ Mixture.keys m := by
  unfold Mixture.hasSpecie Mixture.keys
  rw [List.any_eq_true]
  constructor
  · rintro ⟨x, hx, hp⟩
    have hxs : x.1 = s := by simpa using hp
    exact hxs ▸ List.mem_map_of_mem Prod.fst hx
  · intro h
    obtain ⟨x, hx, rfl⟩ := List.mem_map.mp h
    exact ⟨x, hx, by simp⟩

theorem hasSpecie_eq_false_of_not_mem {m : Mixture} {s : Specie}
    (h : s ∉ Mixture.keys m) : Mixture.hasSpecie m s = false := by
  cases hb : Mixture.hasSpecie m s
  · rfl
  · exact absurd ((hasSpecie_iff_mem_keys m s).mp hb) h

/-- Mole-fraction lookup in a list of keyed values. -/
theorem X_map_const_key (l : List Specie) (F : Specie → ℚ) (s : Specie) :
    Mixture.X (l.map (fun k => (k, F k))) s = if s ∈ l then F s else 0 := by
  induction l with
  | nil => simp [Mixture.X]
  | cons a t ih =>
    by_cases h : a = s
    · subst h; simp [X_cons]
    · simp [X_cons, h, ih, Ne.symm h]

/-- Pointwise semantics of `mixtureBlend`: the fraction of every specie in
the blend is the weighted sum of its fractions in the constituents. -/
theorem mixtureBlend_X (mxs : List (Mixture × ℚ)) (s : Specie) :
    Mixture.X (mixtureBlend mxs) s = (mxs.map (fun p => p.2 * Mixture.X p.1 s)).sum := by
  unfold mixtureBlend
  rw [X_map_const_key]
  by_cases h : s ∈ ((mxs.map (fun p => Mixture.keys p.1)).flatten).dedup
  · rw [if_pos h]
  · rw [if_neg h]
    symm
    apply List.sum_eq_zero
    intro x hx
    obtain ⟨p, hp, rfl⟩ := List.mem_map.mp hx
    have hns : Mixture.hasSpecie p.1 s = false := by
      apply hasSpecie_eq_false_of_not_mem
      intro hmem
      exact h (List.mem_dedup.mpr (List.mem_flatten.mpr
        ⟨Mixture.keys p.1, List.mem_map_of_mem (fun q => Mixture.keys q.1) hp, hmem⟩))
    rw [X_eq_zero_of_not_hasSpecie hns, mul_zero]

/-! ### The incremental sub-mixture construction of `_update` -/

/-- The incremental dilution loop of `_update` (lines 216-222 / 227-233)
builds, over a list of distinct positive-fraction species, exactly the
renormalized sub-mixture: each fraction is divided by the running total. -/
theorem addSpecie_foldl (l : List (Specie × ℚ)) :
    ∀ (m : Mixture) (t : ℚ), 0 < t → (∀ q ∈ l, 0 < q.2) →
      (l.map Prod.fst).Nodup → (∀ q ∈ l, Mixture.hasSpecie m q.1 = false) →
      ∃ m2, l.foldl addSpecie (some m, t) = (some m2, t + (l.map Prod.snd).sum) ∧
        (∀ s, Mixture.X m2 s * (t + (l.map Prod.snd).sum) = Mixture.X m s * t + Mixture.X l s) ∧
        (∀ s, Mixture.hasSpecie m2 s = (Mixture.hasSpecie m s || Mixture.hasSpecie l s)) := by
  induction l with
  | nil =>
    intro m t _ _ _ _
    refine ⟨m, by simp, fun s => by simp [X_nil], fun s => by simp [hasSpecie_nil]⟩
  | cons q r ih =>
    intro m t ht hpos hnd hfree
    obtain ⟨a, b⟩ := q
    have hb : 0 < b := hpos (a, b) (List.mem_cons_self _ _)
    have ht1 : 0 < t + b := by linarith
    have hma : Mixture.hasSpecie m a = false := hfree (a, b) (List.mem_cons_self _ _)
    have hnr : a ∉ r.map Prod.fst := (List.nodup_cons.mp (by simpa using hnd)).1
    have hndr : (r.map Prod.fst).Nodup := (List.nodup_cons.mp (by simpa using hnd)).2
    set m1 : Mixture := Mixture.diluteMol m a (b / (t + b)) with hm1
    have hfree1 : ∀ p ∈ r, Mixture.hasSpecie m1 p.1 = false := by
      intro p hp
      rw [hm1, Mixture.diluteMol, hasSpecie_dilute, hfree p (List.mem_cons_of_mem _ hp)]
      have hap : ¬ a = p.1 := fun hc => hnr (hc ▸ List.mem_map_of_mem Prod.fst hp)
      simp [hasSpecie_cons, hasSpecie_nil, hap]
    obtain ⟨m2, hfold, hX, hkeys⟩ := ih m1 (t + b) ht1
      (fun p hp => hpos p (List.mem_cons_of_mem _ hp)) hndr hfree1
    have hXr0 : ∀ s, a = s → Mixture.X r s = 0 := by
      intro s hs
      apply X_eq_zero_of_not_hasSpecie
      exact hasSpecie_eq_false_of_not_mem (fun hmem => hnr (hs ▸ hmem))
    refine ⟨m2, ?_, ?_, ?_⟩
    · rw [List.foldl_cons]
      show List.foldl addSpecie (some m1, t + b) r = _
      rw [hfold]
      simp [add_assoc]
    · intro s
      have h1 : Mixture.X m1 s * (t + b) = Mixture.X m s * t + (if a = s then b else 0) := by
        rw [hm1, Mixture.diluteMol, dilute_X, X_cons, X_nil]
        have hne : t + b ≠ 0 := ne_of_gt ht1
        by_cases hc : a = s
        · rw [if_pos hc, if_pos hc]
          field_simp
          ring
        · rw [if_neg hc, if_neg hc]
          field_simp
          ring
      have h2 := hX s
      rw [h1] at h2
      have hsum : (((a, b) :: r).map Prod.snd).sum = b + (r.map Prod.snd).sum := by simp
      rw [hsum, X_cons, show t + (b + (r.map Prod.snd).sum) = (t + b) + (r.map Prod.snd).sum by ring,
        h2]
      by_cases hc : a = s
      · rw [if_pos hc, if_pos hc, hXr0 s hc]
        ring
      · rw [if_neg hc, if_neg hc]
        ring
    · intro s
      rw [hkeys s, hm1, Mixture.diluteMol, hasSpecie_dilute]
      simp only [hasSpecie_cons, hasSpecie_nil]
      cases Mixture.hasSpecie m s <;> cases Mixture.hasSpecie r s <;>
        cases hd : (decide (a = s)) <;> simp [hd]

/-- Starting from the `None` accumulator (as both sub-mixture loops of
`_update` do), the incremental dilution produces the renormalized
restriction: the resulting sub-mixture assigns to every specie its original
fraction divided by the partition total, and the recorded total is the sum
of the original fractions. -/
theorem addSpecie_foldl_none (l : List (Specie × ℚ)) (hne : l ≠ [])
    (hpos : ∀ q ∈ l, 0 < q.2) (hnd : (l.map Prod.fst).Nodup) :
    ∃ m2, l.foldl addSpecie (none, 0) = (some m2, (l.map Prod.snd).sum) ∧
      (∀ s, Mixture.X m2 s * (l.map Prod.snd).sum = Mixture.X l s) ∧
      (∀ s, Mixture.hasSpecie m2 s = Mixture.hasSpecie l s) := by
  match l, hne with
  | (a, b) :: r, _ =>
    have hb : 0 < b := hpos (a, b) (List.mem_cons_self _ _)
    have hnr : a ∉ r.map Prod.fst := (List.nodup_cons.mp (by simpa using hnd)).1
    have hndr : (r.map Prod.fst).Nodup := (List.nodup_cons.mp (by simpa using hnd)).2
    have hfree : ∀ p ∈ r, Mixture.hasSpecie [(a, (1 : ℚ))] p.1 = false := by
      intro p hp
      have hap : ¬ a = p.1 := fun hc => hnr (hc ▸ List.mem_map_of_mem Prod.fst hp)
      simp [hasSpecie_cons, hasSpecie_nil, hap]
    obtain ⟨m2, hfold, hX, hkeys⟩ := addSpecie_foldl r [(a, 1)] (0 + b) (by linarith)
      (fun p hp => hpos p (List.mem_cons_of_mem _ hp)) hndr hfree
    have hXr0 : ∀ s, a = s → Mixture.X r s = 0 := fun s hs =>
      X_eq_zero_of_not_hasSpecie (hasSpecie_eq_false_of_not_mem (fun hmem => hnr (hs ▸ hmem)))
    refine ⟨m2, ?_, ?_, ?_⟩
    · rw [List.foldl_cons]
      show List.foldl addSpecie (some [(a, 1)], 0 + b) r = _
      rw [hfold]
      have : (0 : ℚ) + b + (r.map Prod.snd).sum = (((a, b) :: r).map Prod.snd).sum := by
        simp
      rw [this]
    · intro s
      have h2 := hX s
      have hsum : (((a, b) :: r).map Prod.snd).sum = (0 : ℚ) + b + (r.map Prod.snd).sum := by
        simp
      rw [hsum, h2, X_cons, X_nil, X_cons]
      by_cases hc : a = s
      · rw [if_pos hc, if_pos hc, hXr0 s hc]
        ring
      · rw [if_neg hc, if_neg hc]
        ring
    · intro s
      rw [hkeys s]
      simp only [hasSpecie_cons, hasSpecie_nil]
      cases hd : (decide (a = s)) <;> simp [hd]

/-- When the reacting mixture exists, the inert loop of `_update` never
raises: it folds `addSpecie` over the species absent from the reacting
mixture. -/
theorem inertsOf_some (reactants : Mixture) (rm : Mixture) :
    inertsOf reactants (some rm) = .ok
      ((reactants.filter (fun sx => !(Mixture.hasSpecie rm sx.1))).foldl addSpecie (none, 0)) := by
  show List.foldlM _ _ _ = _
  generalize ((none, 0) : Option Mixture × ℚ) = init
  induction reactants generalizing init with
  | nil => rfl
  | cons q l ih =>
    rw [List.foldlM_cons, List.filter_cons]
    by_cases h : Mixture.hasSpecie rm q.1 = true
    · simpa [h] using ih init
    · have h' : Mixture.hasSpecie rm q.1 = false := by simpa using h
      simpa [h'] using ih (addSpecie init q)

/-- With no reacting mixture and a non-empty reactant mixture, the inert
loop raises the `TypeError` of `specie in None`. -/
theorem inertsOf_none (q : Specie × ℚ) (l : List (Specie × ℚ)) :
    inertsOf (q :: l) none = .error [noneContainsMsg] := by
  rfl

/-- If some fuel of the list has no oxidation reaction, the lookup loop of
`_update` raises the missing-reaction error for the first such fuel. -/
theorem lookupOxReactions_error (cfg : Config) (fs : List Specie) (f : Specie)
    (hf : f ∈ fs) (hnone : findOxReaction cfg f = none) :
    ∃ f0, f0 ∈ fs ∧ findOxReaction cfg f0 = none ∧
      lookupOxReactions cfg fs = .error [oxNotFoundMsg cfg f0] := by
  induction fs with
  | nil => cases hf
  | cons g gs ih =>
    by_cases hg : findOxReaction cfg g = none
    · exact ⟨g, List.mem_cons_self _ _, hg, by unfold lookupOxReactions; rw [hg]⟩
    · obtain ⟨rg, hrg⟩ := Option.ne_none_iff_exists'.mp hg
      have hfgs : f ∈ gs := by
        rcases List.mem_cons.mp hf with h1 | h1
        · exact absurd hnone (h1 ▸ hg)
        · exact h1
      obtain ⟨f0, hm, hn, he⟩ := ih hfgs
      refine ⟨f0, List.mem_cons_of_mem _ hm, hn, ?_⟩
      unfold lookupOxReactions
      rw [hrg, he]

/-! ### The claims -/

/-- C1 (evidence of the code bug): for the fuel-free one-specie reactant
mixture of pure N2, `_update` raises the `TypeError` of evaluating
`specie["specie"] in reactingMix` with `reactingMix = None` in the inert
partition loop (source line 228), because that loop runs before the
`reactingMix is None` passthrough check of line 245.  The claimed
behaviour (products = reactants, early return, no error) never happens
for a non-empty fuel-free mixture. -/
theorem C1_no_fuel_raises_TypeError :
    stoichUpdate cfgTest ⟨[], []⟩ [("N2", 1)] = .error [noneContainsMsg] := by
  rfl

/-- C7: a second `update` call with a reactant mixture equal by value to
the cached one short-circuits in the inherited up-to-date check: it
returns the signal `true` together with the unchanged state — in
particular the cached products, bit-identical — and the balancing
algorithm is not re-entered. -/
theorem C7_second_update_is_noop (cfg : Config) (st st1 : RModel) (r : Mixture) (b : Bool)
    (h : stoichUpdate cfg st r = .ok (st1, b)) :
    stoichUpdate cfg st1 r = .ok (st1, true) := by
  have hre : st1.reactants = r := by
    unfold stoichUpdate baseUpdate at h
    by_cases hc : r = st.reactants
    · rw [if_pos hc] at h
      simp only [Except.ok.injEq, Prod.mk.injEq] at h
      rw [← h.1]
      exact hc.symm
    · rw [if_neg hc] at h
      have h2 : (match stoichProducts cfg r with
          | Except.error e => (Except.error e : Except PyErr (RModel × Bool))
          | Except.ok prods =>
              Except.ok (({ reactants := r, products := prods } : RModel), false)) =
          Except.ok (st1, b) := h
      cases hp : stoichProducts cfg r with
      | error e => rw [hp] at h2; cases h2
      | ok prods =>
        rw [hp] at h2
        simp only [Except.ok.injEq, Prod.mk.injEq] at h2
        rw [← h2.1]
  unfold stoichUpdate baseUpdate
  rw [if_pos hre.symm]

/-- Witness for C7 at a concrete input: updating from scratch with the
stoichiometric methane mixture and then updating again with the same
mixture returns the cached state with the up-to-date signal. -/
theorem C7_witness :
    stoichUpdate cfgTest
      ⟨[("CH4", 1/3), ("O2", 2/3)], [("CO2", 1/3), ("H2O", 2/3)]⟩
      [("CH4", 1/3), ("O2", 2/3)] =
    .ok (⟨[("CH4", 1/3), ("O2", 2/3)], [("CO2", 1/3), ("H2O", 2/3)]⟩, true) :=
  C7_second_update_is_noop cfgTest ⟨[], []⟩
    ⟨[("CH4", 1/3), ("O2", 2/3)], [("CO2", 1/3), ("H2O", 2/3)]⟩
    [("CH4", 1/3), ("O2", 2/3)] false (by with_unfolding_all rfl)

/-- C10: `SelectionTable.add` is atomic: a failing call (name collision,
or the class is not derived from the table's owner) returns the table
exactly as it was, and a successful call appends exactly the single new
entry; the call succeeds iff the name is fresh and the class derives from
the owner. -/
theorem C10_add_atomic (tbl : SelTable) (c : Cls) :
    ((SelTable.add tbl c).2.isSome = true → (SelTable.add tbl c).1 = tbl) ∧
    ((SelTable.add tbl c).2 = none →
      (SelTable.add tbl c).1.db = tbl.db ++ [(c.name, c)]) ∧
    ((SelTable.add tbl c).2 = none ↔
      (SelTable.mem tbl c.name = false ∧ isSubclassOf c tbl.ownerName = true)) := by
  unfold SelTable.add
  by_cases h1 : SelTable.mem tbl c.name = true
  · rw [if_pos h1]
    refine ⟨fun _ => rfl, fun hc => absurd hc (by simp), ?_⟩
    constructor
    · intro hc; exact absurd hc (by simp)
    · rintro ⟨hf, _⟩
      rw [h1] at hf
      exact absurd hf (by simp)
  · have h1f : SelTable.mem tbl c.name = false := by simpa using h1
    rw [if_neg h1]
    by_cases h2 : isSubclassOf c tbl.ownerName = true
    · rw [if_pos h2]
      refine ⟨fun hs => absurd hs (by simp), fun _ => rfl, ?_⟩
      exact ⟨fun _ => ⟨h1f, h2⟩, fun _ => rfl⟩
    · have h2f : isSubclassOf c tbl.ownerName = false := by simpa using h2
      rw [if_neg h2]
      refine ⟨fun _ => rfl, fun hc => absurd hc (by simp), ?_⟩
      constructor
      · intro hc; exact absurd hc (by simp)
      · rintro ⟨_, ht⟩
        rw [h2f] at ht
        exact absurd ht (by simp)

/-- Witness for C10 at a concrete input: adding the concrete subclass to
the freshly seeded table succeeds and appends exactly its entry. -/
theorem C10_witness :
    (SelTable.add tblReg clsStoich).1.db = tblReg.db ++ [(clsStoich.name, clsStoich)] :=
  (C10_add_atomic tblReg clsStoich).2.1 (by rfl)

/-- C2 refuted at a concrete input: for a single CH4 fuel against the
registered methane oxidation reaction, the matrix actually built by
`_update` (diagonal = mole fraction of the FUEL in the reaction's
reactants, 1/3) differs from the matrix described by the claim
(diagonal = oxidizer mole fraction, 2/3). -/
theorem C2_counterexample :
    buildM ["CH4"] [("CH4", rCH4)] [("CH4", 1)] ≠
      buildM_claim "O2" ["CH4"] [("CH4", rCH4)] [("CH4", 1)] := by
  with_unfolding_all decide

/-- C2 as amended: the (n+1) x (n+1) matrix built by `_update` has
diagonal entries equal to the mole fraction of FUEL i in reaction i's
reactants (the spec said: of the oxidizer), zeros off the diagonal,
last-column entries equal to minus the mole fraction of fuel i within the
fuel-only sub-mixture, a last row of n ones followed by a zero for f, and
a right-hand side of n zeros with 1 in the last entry. -/
theorem C2_amended_matrix_shape (fuels : List Specie)
    (oxReacts : List (Specie × Reaction)) (fuelMix : Mixture) :
    (buildM fuels oxReacts fuelMix).length = fuels.length + 1 ∧
    (∀ i, i < fuels.length → ∀ j, j < fuels.length →
      ((buildM fuels oxReacts fuelMix).getD i []).getD j 0 =
        if i = j then
          Mixture.X (oxFor oxReacts (fuels.getD i "")).reactants (fuels.getD i "")
        else 0) ∧
    (∀ i, i < fuels.length →
      ((buildM fuels oxReacts fuelMix).getD i []).getD fuels.length 0 =
        -(Mixture.X fuelMix (fuels.getD i ""))) ∧
    ((buildM fuels oxReacts fuelMix).getD fuels.length [] =
      List.replicate fuels.length 1 ++ [0]) ∧
    buildV fuels = List.replicate fuels.length 0 ++ [1] := by
  have hlenA : (fuels.enum.map (fun p =>
      (fuels.enum.map (fun q =>
        if p.1 = q.1 then Mixture.X (oxFor oxReacts p.2).reactants p.2 else 0))
        ++ [-(Mixture.X fuelMix p.2)])).length = fuels.length := by
    simp [List.enum_length]
  have hrow : ∀ i, i < fuels.length →
      (buildM fuels oxReacts fuelMix).getD i [] =
        (fuels.enum.map (fun q =>
          if i = q.1 then
            Mixture.X (oxFor oxReacts (fuels.getD i "")).reactants (fuels.getD i "")
          else 0)) ++ [-(Mixture.X fuelMix (fuels.getD i ""))] := by
    intro i hi
    unfold buildM
    rw [List.getD_append _ _ _ i (by rw [hlenA]; exact hi),
      List.getD_eq_getElem _ _ (by rw [hlenA]; exact hi), List.getElem_map,
      List.getElem_enum, List.getD_eq_getElem fuels "" hi]
  refine ⟨?_, ?_, ?_, ?_, rfl⟩
  · unfold buildM
    rw [List.length_append, hlenA]
    rfl
  · intro i hi j hj
    rw [hrow i hi]
    have hlenB : (fuels.enum.map (fun q =>
        if i = q.1 then
          Mixture.X (oxFor oxReacts (fuels.getD i "")).reactants (fuels.getD i "")
        else 0)).length = fuels.length := by
      simp [List.enum_length]
    rw [List.getD_append _ _ _ j (by rw [hlenB]; exact hj),
      List.getD_eq_getElem _ _ (by rw [hlenB]; exact hj), List.getElem_map,
      List.getElem_enum]
  · intro i hi
    rw [hrow i hi]
    have hlenB : (fuels.enum.map (fun q =>
        if i = q.1 then
          Mixture.X (oxFor oxReacts (fuels.getD i "")).reactants (fuels.getD i "")
        else 0)).length = fuels.length := by
      simp [List.enum_length]
    rw [List.getD_append_right _ _ _ _ (by rw [hlenB]), hlenB]
    simp
  · unfold buildM
    rw [List.getD_append_right _ _ _ _ (by rw [hlenA]), hlenA]
    simp

/-- Witness for C2 as amended, at the two-fuel fixture: the (0,0) entry of
the built matrix is the mole fraction of CH4 in the methane reaction's
reactants. -/
theorem C2_amended_witness :
    ((buildM ["CH4", "H2"] [("CH4", rCH4), ("H2", rH2)]
        [("CH4", 1/2), ("H2", 1/2)]).getD 0 []).getD 0 0 =
      if 0 = 0 then
        Mixture.X (oxFor [("CH4", rCH4), ("H2", rH2)]
          (["CH4", "H2"].getD 0 "")).reactants (["CH4", "H2"].getD 0 "")
      else 0 :=
  (C2_amended_matrix_shape ["CH4", "H2"] [("CH4", rCH4), ("H2", rH2)]
    [("CH4", 1/2), ("H2", 1/2)]).2.1 0 (by decide) 0 (by decide)

/-- C6: if some identified fuel of a (stale) reactant mixture has no
oxidation reaction paired with the configured oxidizer in the database,
the update fails with the error naming a (fuel, oxidizer) couple — the
first offending fuel — rather than skipping the fuel or substituting a
default. -/
theorem C6_missing_reaction_fatal (cfg : Config) (st : RModel) (r : Mixture) (f : Specie)
    (hst : ¬ r = st.reactants)
    (hf : f ∈ updateFuels cfg r) (hnone : findOxReaction cfg f = none) :
    ∃ f0, f0 ∈ updateFuels cfg r ∧ findOxReaction cfg f0 = none ∧
      stoichUpdate cfg st r = .error [oxNotFoundMsg cfg f0] := by
  obtain ⟨f0, hm, hn, he⟩ := lookupOxReactions_error cfg (updateFuels cfg r) f hf hnone
  have hprod : stoichProducts cfg r = .error [oxNotFoundMsg cfg f0] := by
    simp only [stoichProducts]
    rw [he]
  have hb : baseUpdate st r = ({ reactants := r, products := st.products }, false) := by
    unfold baseUpdate
    rw [if_neg hst]
  refine ⟨f0, hm, hn, ?_⟩
  calc stoichUpdate cfg st r
      = (match stoichProducts cfg r with
          | Except.error e => (Except.error e : Except PyErr (RModel × Bool))
          | Except.ok prods =>
              Except.ok (({ reactants := r, products := prods } : RModel), false)) := by
        unfold stoichUpdate
        rw [hb]
    _ = Except.error [oxNotFoundMsg cfg f0] := by rw [hprod]

/-- Witness for C6 at a concrete input: ethane is registered as a fuel but
the database only holds the methane reaction, so the update on an
ethane/air mixture fails with the error naming the (C2H6, O2) couple. -/
theorem C6_witness :
    ∃ f0, f0 ∈ updateFuels cfgMissing [("C2H6", 1/3), ("O2", 2/3)] ∧
      findOxReaction cfgMissing f0 = none ∧
      stoichUpdate cfgMissing ⟨[], []⟩ [("C2H6", 1/3), ("O2", 2/3)] =
        .error [oxNotFoundMsg cfgMissing f0] :=
  C6_missing_reaction_fatal cfgMissing ⟨[], []⟩ [("C2H6", 1/3), ("O2", 2/3)] "C2H6"
    (by decide) (by decide) (by decide)

/-- A key absent from a dictionary is found by no entry. -/
theorem DictV_find_none {d : DictV} {k : String} (h : DictV.hasKey d k = false) :
    List.find? (fun p => p.1 = k) d = none := by
  rw [List.find?_eq_none]
  intro x hx hpx
  have hk : DictV.hasKey d k = true := List.any_eq_true.mpr ⟨x, hx, hpx⟩
  rw [h] at hk
  cases hk

/-- C9: a successful `fromDictionary` call on a dictionary holding a
"reactants" entry but no "oxidizer" entry hands back to the caller a
dictionary that is the input with the single entry "oxidizer" -> O2
appended at the end: the argument dictionary observed after the call
differs from the one passed in, every other key still maps to its old
value, and the new key holds the default O2 molecule. -/
theorem C9_fromDictionary_mutates (d : DictV) (out : Mixture × Specie) (d1 : DictV)
    (hreact : DictV.hasKey d "reactants" = true)
    (hox : DictV.hasKey d "oxidizer" = false)
    (h : stoichFromDictionary d = .ok (out, d1)) :
    d1 = d ++ [("oxidizer", O2default)] ∧ ¬ d1 = d ∧
      (∀ k, ¬ k = "oxidizer" → DictV.get d1 k = DictV.get d k) ∧
      DictV.get d1 "oxidizer" = some O2default := by
  have hd1 : d1 = d ++ [("oxidizer", O2default)] := by
    unfold stoichFromDictionary at h
    rw [hreact] at h
    simp only [Bool.not_true, Bool.false_eq_true, if_false, hox] at h
    cases hA : DictV.get (d ++ [("oxidizer", O2default)]) "reactants" with
    | none => rw [hA] at h; cases h
    | some vA =>
      cases hB : DictV.get (d ++ [("oxidizer", O2default)]) "oxidizer" with
      | none =>
        rw [hA, hB] at h
        cases vA <;> cases h
      | some vB =>
        rw [hA, hB] at h
        cases vA with
        | mix m =>
          cases vB with
          | mol ox =>
            simp only [Except.ok.injEq, Prod.mk.injEq] at h
            exact h.2.symm
          | mix m2 => cases h
          | txt s2 => cases h
        | mol o1 => cases h
        | txt s1 => cases h
  refine ⟨hd1, ?_, ?_, ?_⟩
  · intro hc
    rw [hd1] at hc
    have hlen := congrArg List.length hc
    rw [List.length_append] at hlen
    simp at hlen
  · intro k hk
    rw [hd1]
    unfold DictV.get
    rw [List.find?_append]
    cases hf : List.find? (fun p => p.1 = k) d with
    | some v => rfl
    | none =>
      show (Option.none.or (List.find? (fun p => p.1 = k) [("oxidizer", O2default)])).map
          Prod.snd = Option.none.map Prod.snd
      have : List.find? (fun p => p.1 = k) [("oxidizer", O2default)] = none := by
        rw [List.find?_eq_none]
        intro x hx
        rcases List.mem_singleton.mp hx with rfl
        simpa using fun hc => hk hc.symm
      rw [this]
      rfl
  · rw [hd1]
    unfold DictV.get
    rw [List.find?_append, DictV_find_none hox]
    rfl

/-- A type name absent from a selection table is found by no entry of its
database. -/
theorem SelTable_find_none {tbl : SelTable} {n : String}
    (h : SelTable.mem tbl n = false) :
    List.find? (fun p => p.1 = n) tbl.db = none := by
  rw [List.find?_eq_none]
  intro x hx hpx
  have hk : SelTable.mem tbl n = true := List.any_eq_true.mpr ⟨x, hx, hpx⟩
  rw [h] at hk
  cases hk

/-- C4: the registry round-trip.  After a successful `add` of a concrete
class C, the selector called on the table with C's type name and a
configuration dictionary returns the instance built by exactly C's
`fromDictionary`; called with a name absent from the table it fails, and
the error chain surfaced to the caller carries the `check` message, which
names the missing type and lists the available type names. -/
theorem C4_selector_roundtrip (tbl tbl2 : SelTable) (c : Cls) (dKeys : List String)
    (badName : String)
    (hadd : SelTable.add tbl c = (tbl2, none))
    (hbad : SelTable.mem tbl badName = false) :
    selector tbl2 c.name dKeys = .ok ⟨c.name, dKeys⟩ ∧
    ∃ ch, selector tbl badName dKeys = .error ch ∧ checkMsg tbl badName ∈ ch := by
  have hsplit : SelTable.mem tbl c.name = false ∧ tbl2.db = tbl.db ++ [(c.name, c)] := by
    unfold SelTable.add at hadd
    by_cases h1 : SelTable.mem tbl c.name = true
    · rw [if_pos h1] at hadd
      have h2 := congrArg Prod.snd hadd
      simp at h2
    · have h1f : SelTable.mem tbl c.name = false := by simpa using h1
      rw [if_neg h1] at hadd
      by_cases h2 : isSubclassOf c tbl.ownerName = true
      · rw [if_pos h2] at hadd
        have h3 := congrArg Prod.fst hadd
        simp only at h3
        exact ⟨h1f, by rw [← h3]⟩
      · rw [if_neg h2] at hadd
        have h3 := congrArg Prod.snd hadd
        simp at h3
  obtain ⟨hcf, hdb⟩ := hsplit
  constructor
  · have hfind : List.find? (fun p => p.1 = c.name) tbl2.db = some (c.name, c) := by
      rw [hdb, List.find?_append, SelTable_find_none hcf]
      simp [List.find?_cons]
    have hmem2 : SelTable.mem tbl2 c.name = true := by
      unfold SelTable.mem
      rw [hdb]
      simp [List.any_append]
    unfold selector SelTable.check
    rw [if_pos hmem2]
    unfold SelTable.getItem SelTable.lookup
    rw [hfind]
    rfl
  · refine ⟨fatalError "SelectionTable.__get__" "Argument checking failed"
        [getItemMsg badName] ++ [checkMsg tbl badName], ?_, ?_⟩
    · unfold selector SelTable.check
      rw [if_neg (by simp [hbad])]
      unfold SelTable.getItem SelTable.lookup
      rw [SelTable_find_none hbad]
      rfl
    · simp

/-- Witness for C4 at a concrete input: registering the concrete model
class into the seeded table and selecting it by name returns an instance
of exactly that class; selecting an unknown name fails with a chain
carrying the listing message. -/
theorem C4_witness :
    selector (SelTable.add tblReg clsStoich).1 clsStoich.name ["reactants"] =
        .ok ⟨clsStoich.name, ["reactants"]⟩ ∧
      ∃ ch, selector tblReg "Nope" ["reactants"] = .error ch ∧
        checkMsg tblReg "Nope" ∈ ch :=
  C4_selector_roundtrip tblReg (SelTable.add tblReg clsStoich).1 clsStoich
    ["reactants"] "Nope" (by rfl) (by decide)

/-- C8 refuted at a concrete input: CO2 is present in the reactants
(mole fraction 1/4) and participates in no active oxidation reaction
(it is an inert), yet — being also a product of the methane reaction — it
appears in the final products at mole fraction 1/2, not 1/4. -/
theorem C8_counterexample :
    lookupOxReactions cfgTest
        (updateFuels cfgTest [("CH4", 1/4), ("O2", 1/2), ("CO2", 1/4)]) =
      .ok [("CH4", rCH4)] ∧
    specieReacts cfgTest [("CH4", 1/4), ("O2", 1/2), ("CO2", 1/4)]
        (updateFuels cfgTest [("CH4", 1/4), ("O2", 1/2), ("CO2", 1/4)])
        [("CH4", rCH4)] "CO2" = false ∧
    stoichProducts cfgTest [("CH4", 1/4), ("O2", 1/2), ("CO2", 1/4)] =
      .ok [("CO2", 1/2), ("H2O", 1/2)] ∧
    ¬ Mixture.X [("CO2", (1 : ℚ)/2), ("H2O", 1/2)] "CO2" =
        Mixture.X [("CH4", (1 : ℚ)/4), ("O2", 1/2), ("CO2", 1/4)] "CO2" :=
  ⟨by with_unfolding_all rfl, by rfl, by with_unfolding_all rfl,
    by with_unfolding_all decide⟩

/-- C8 as amended: every specie of the reactant mixture participating in
no active oxidation reaction (an inert) is collected into the renormalized
inert sub-mixture (total original fraction xInert) and diluted back into
the products at mole fraction xInert, so that — PROVIDED the specie does
not also occur in the pre-inert (lean/rich-corrected) products, e.g. as a
reaction product — its final mole fraction equals its mole fraction in the
original reactant mixture. -/
theorem C8_amended_inert_preserved (cfg : Config) (r : Mixture) (s : Specie)
    (oxReacts : List (Specie × Reaction)) (rm : Mixture) (xR : ℚ) (sol : List ℚ)
    (hnd : (r.map Prod.fst).Nodup)
    (hpos : ∀ q ∈ r, 0 < q.2)
    (hox : lookupOxReactions cfg (updateFuels cfg r) = .ok oxReacts)
    (hrm : reactingMixOf cfg r (updateFuels cfg r) oxReacts = (some rm, xR))
    (hsol : gaussSolve
        (buildM (updateFuels cfg r) oxReacts (Mixture.extract r (updateFuels cfg r)))
        (buildV (updateFuels cfg r)) = some sol)
    (hmem : Mixture.hasSpecie r s = true)
    (hinert : specieReacts cfg r (updateFuels cfg r) oxReacts s = false)
    (hnoprod : Mixture.hasSpecie (leanRichCorrected cfg
        (Mixture.extract r (updateFuels cfg r)) rm
        (updateFuels cfg r) oxReacts sol) s = false) :
    ∃ final, stoichProducts cfg r = .ok final ∧
      Mixture.X final s = Mixture.X r s := by
  -- the reacting partition list and the key set of the reacting mixture
  have hrm0 := hrm
  unfold reactingMixOf at hrm0
  have hlrne : r.filter
      (fun sx => specieReacts cfg r (updateFuels cfg r) oxReacts sx.1) ≠ [] := by
    intro hc
    rw [hc] at hrm0
    simp at hrm0
  have hlrpos : ∀ q ∈ r.filter
      (fun sx => specieReacts cfg r (updateFuels cfg r) oxReacts sx.1), 0 < q.2 :=
    fun q hq => hpos q (List.mem_of_mem_filter hq)
  have hlrnd : ((r.filter
      (fun sx => specieReacts cfg r (updateFuels cfg r) oxReacts sx.1)).map Prod.fst).Nodup :=
    List.Nodup.sublist (List.Sublist.map _ (List.filter_sublist _)) hnd
  obtain ⟨rm2, hfold2, _, hkeys2⟩ := addSpecie_foldl_none _ hlrne hlrpos hlrnd
  rw [hfold2] at hrm0
  have hrm2 : rm2 = rm := by
    have := congrArg Prod.fst hrm0
    simpa using this
  -- the inert specie is not a key of the reacting mixture
  have hrms : Mixture.hasSpecie rm s = false := by
    rw [← hrm2, hkeys2 s]
    cases hb : Mixture.hasSpecie (r.filter
        (fun sx => specieReacts cfg r (updateFuels cfg r) oxReacts sx.1)) s
    · rfl
    · exfalso
      obtain ⟨q, hq, hq1⟩ := List.any_eq_true.mp hb
      have hq2 := List.of_mem_filter hq
      have hqs : q.1 = s := by simpa using hq1
      rw [hqs] at hq2
      rw [hinert] at hq2
      cases hq2
  -- the inert partition
  obtain ⟨qs, hqs_mem, hqs1⟩ := List.any_eq_true.mp hmem
  have hqs : qs.1 = s := by simpa using hqs1
  have hlfmem : qs ∈ r.filter (fun sx => !(Mixture.hasSpecie rm sx.1)) := by
    apply List.mem_filter.mpr
    exact ⟨hqs_mem, by rw [hqs, hrms]; rfl⟩
  have hlfne : r.filter (fun sx => !(Mixture.hasSpecie rm sx.1)) ≠ [] := by
    intro hc
    rw [hc] at hlfmem
    cases hlfmem
  have hlfpos : ∀ q ∈ r.filter (fun sx => !(Mixture.hasSpecie rm sx.1)), 0 < q.2 :=
    fun q hq => hpos q (List.mem_of_mem_filter hq)
  have hlfnd : ((r.filter (fun sx => !(Mixture.hasSpecie rm sx.1))).map Prod.fst).Nodup :=
    List.Nodup.sublist (List.Sublist.map _ (List.filter_sublist _)) hnd
  obtain ⟨inerts, hfoldf, hXf, _⟩ := addSpecie_foldl_none _ hlfne hlfpos hlfnd
  have hinfold : inertsOf r (some rm) = .ok (some inerts,
      ((r.filter (fun sx => !(Mixture.hasSpecie rm sx.1))).map Prod.snd).sum) := by
    rw [inertsOf_some, hfoldf]
  -- assemble the pipeline
  refine ⟨inertStep (some inerts)
      ((r.filter (fun sx => !(Mixture.hasSpecie rm sx.1))).map Prod.snd).sum
      (leanRichCorrected cfg (Mixture.extract r (updateFuels cfg r)) rm
        (updateFuels cfg r) oxReacts sol), ?_, ?_⟩
  · unfold stoichProducts
    rw [hox]
    dsimp only
    rw [hrm]
    dsimp only
    rw [hinfold]
    dsimp only
    rw [hsol]
  · show Mixture.X (Mixture.dilute _ inerts _) s = _
    rw [dilute_X, X_eq_zero_of_not_hasSpecie hnoprod, mul_zero, zero_add, mul_comm,
      hXf s, X_filter_of_keeps]
    intro q _ hq
    rw [hq, hrms]
    rfl

/-- Witness for C8 as amended, at a concrete input: argon (an inert that
is not a combustion product) is present at mole fraction 1/4 in a
stoichiometric methane/air-like mixture and appears in the final products
at exactly 1/4. -/
theorem C8_amended_witness :
    ∃ final, stoichProducts cfgTest [("CH4", 1/4), ("O2", 1/2), ("Ar", 1/4)] = .ok final ∧
      Mixture.X final "Ar" =
        Mixture.X [("CH4", (1 : ℚ)/4), ("O2", 1/2), ("Ar", 1/4)] "Ar" :=
  C8_amended_inert_preserved cfgTest [("CH4", 1/4), ("O2", 1/2), ("Ar", 1/4)] "Ar"
    [("CH4", rCH4)] [("CH4", 1/3), ("O2", 2/3)] (3/4) [1, 1/3]
    (by decide) (by with_unfolding_all decide) (by with_unfolding_all rfl)
    (by with_unfolding_all rfl) (by with_unfolding_all rfl) (by rfl) (by rfl)
    (by with_unfolding_all rfl)

/-- C3: the lean/rich correction step of `_update`.  Whenever the pipeline
reaches the correction (oxidation reactions found, a reacting mixture and
an inert partition exist, the blend system solved), the final products are
the corrected products diluted with the inerts, and the correction itself
satisfies: (i) when the stoichiometric and actual oxidizer fractions are
float-close, it is skipped entirely, so the products carry nothing beyond
the blended reactions' defined products; (ii) when the actual oxidizer
fraction of the reacting mixture exceeds the stoichiometric one, the raw
products are diluted with pure oxidizer at mole fraction (actual - ideal);
(iii) otherwise, they are diluted with the fuel-only sub-mixture at mole
fraction (ideal - actual). -/
theorem C3_lean_rich_correction (cfg : Config) (r : Mixture)
    (oxReacts : List (Specie × Reaction)) (rm : Mixture) (xR : ℚ)
    (inertsO : Option Mixture) (xI : ℚ) (sol : List ℚ)
    (hox : lookupOxReactions cfg (updateFuels cfg r) = .ok oxReacts)
    (hrm : reactingMixOf cfg r (updateFuels cfg r) oxReacts = (some rm, xR))
    (hin : inertsOf r (some rm) = .ok (inertsO, xI))
    (hsol : gaussSolve
        (buildM (updateFuels cfg r) oxReacts (Mixture.extract r (updateFuels cfg r)))
        (buildV (updateFuels cfg r)) = some sol) :
    stoichProducts cfg r = .ok (inertStep inertsO xI
      (leanRichCorrected cfg (Mixture.extract r (updateFuels cfg r)) rm
        (updateFuels cfg r) oxReacts sol)) ∧
    (isclose
        (Mixture.X (stoichReactingMixOf (updateFuels cfg r) oxReacts sol) cfg.oxidizer)
        (Mixture.X rm cfg.oxidizer) →
      leanRichCorrected cfg (Mixture.extract r (updateFuels cfg r)) rm
          (updateFuels cfg r) oxReacts sol =
        rawStoichProds (updateFuels cfg r) oxReacts sol) ∧
    (¬ isclose
        (Mixture.X (stoichReactingMixOf (updateFuels cfg r) oxReacts sol) cfg.oxidizer)
        (Mixture.X rm cfg.oxidizer) →
      Mixture.X rm cfg.oxidizer >
          Mixture.X (stoichReactingMixOf (updateFuels cfg r) oxReacts sol) cfg.oxidizer →
      ∀ s, Mixture.X (leanRichCorrected cfg (Mixture.extract r (updateFuels cfg r)) rm
            (updateFuels cfg r) oxReacts sol) s =
        (1 - (Mixture.X rm cfg.oxidizer -
            Mixture.X (stoichReactingMixOf (updateFuels cfg r) oxReacts sol) cfg.oxidizer)) *
            Mixture.X (rawStoichProds (updateFuels cfg r) oxReacts sol) s +
          (Mixture.X rm cfg.oxidizer -
            Mixture.X (stoichReactingMixOf (updateFuels cfg r) oxReacts sol) cfg.oxidizer) *
            (if cfg.oxidizer = s then 1 else 0)) ∧
    (¬ isclose
        (Mixture.X (stoichReactingMixOf (updateFuels cfg r) oxReacts sol) cfg.oxidizer)
        (Mixture.X rm cfg.oxidizer) →
      ¬ (Mixture.X rm cfg.oxidizer >
          Mixture.X (stoichReactingMixOf (updateFuels cfg r) oxReacts sol) cfg.oxidizer) →
      ∀ s, Mixture.X (leanRichCorrected cfg (Mixture.extract r (updateFuels cfg r)) rm
            (updateFuels cfg r) oxReacts sol) s =
        (1 - (Mixture.X (stoichReactingMixOf (updateFuels cfg r) oxReacts sol) cfg.oxidizer -
            Mixture.X rm cfg.oxidizer)) *
            Mixture.X (rawStoichProds (updateFuels cfg r) oxReacts sol) s +
          (Mixture.X (stoichReactingMixOf (updateFuels cfg r) oxReacts sol) cfg.oxidizer -
            Mixture.X rm cfg.oxidizer) *
            Mixture.X (Mixture.extract r (updateFuels cfg r)) s) := by
  refine ⟨?_, ?_, ?_, ?_⟩
  · unfold stoichProducts
    rw [hox]
    dsimp only
    rw [hrm]
    dsimp only
    rw [hin]
    dsimp only
    rw [hsol]
  · intro hcl
    unfold leanRichCorrected
    rw [if_pos hcl]
  · intro hni hgt s
    unfold leanRichCorrected
    rw [if_neg hni, if_pos hgt, dilute_X, X_cons, X_nil]
  · intro hni hle s
    unfold leanRichCorrected
    rw [if_neg hni, if_neg hle, dilute_X]

/-- Witness for C3 at a concrete input: a single-fuel lean methane mixture
(oxidizer in excess of stoichiometric need) reaches the rich/excess-
oxidizer branch, and the corrected oxidizer fraction obeys the dilution
formula. -/
theorem C3_witness :
    stoichProducts cfgTest [("CH4", 1/4), ("O2", 3/4)] = .ok (inertStep none 0
        (leanRichCorrected cfgTest
          (Mixture.extract [("CH4", 1/4), ("O2", 3/4)]
            (updateFuels cfgTest [("CH4", 1/4), ("O2", 3/4)]))
          [("CH4", 1/4), ("O2", 3/4)]
          (updateFuels cfgTest [("CH4", 1/4), ("O2", 3/4)]) [("CH4", rCH4)] [1, 1/3])) ∧
      Mixture.X (leanRichCorrected cfgTest
          (Mixture.extract [("CH4", 1/4), ("O2", 3/4)]
            (updateFuels cfgTest [("CH4", 1/4), ("O2", 3/4)]))
          [("CH4", 1/4), ("O2", 3/4)]
          (updateFuels cfgTest [("CH4", 1/4), ("O2", 3/4)]) [("CH4", rCH4)] [1, 1/3]) "O2" =
        (1 - (Mixture.X [("CH4", (1 : ℚ)/4), ("O2", 3/4)] cfgTest.oxidizer -
            Mixture.X (stoichReactingMixOf
              (updateFuels cfgTest [("CH4", 1/4), ("O2", 3/4)]) [("CH4", rCH4)] [1, 1/3])
              cfgTest.oxidizer)) *
            Mixture.X (rawStoichProds
              (updateFuels cfgTest [("CH4", 1/4), ("O2", 3/4)]) [("CH4", rCH4)] [1, 1/3]) "O2" +
          (Mixture.X [("CH4", (1 : ℚ)/4), ("O2", 3/4)] cfgTest.oxidizer -
            Mixture.X (stoichReactingMixOf
              (updateFuels cfgTest [("CH4", 1/4), ("O2", 3/4)]) [("CH4", rCH4)] [1, 1/3])
              cfgTest.oxidizer) *
            (if cfgTest.oxidizer = "O2" then 1 else 0) := by
  have h := C3_lean_rich_correction cfgTest [("CH4", 1/4), ("O2", 3/4)]
    [("CH4", rCH4)] [("CH4", 1/4), ("O2", 3/4)] 1 none 0 [1, 1/3]
    (by with_unfolding_all rfl) (by with_unfolding_all rfl)
    (by with_unfolding_all rfl) (by with_unfolding_all rfl)
  exact ⟨h.1, h.2.2.1 (by with_unfolding_all decide) (by with_unfolding_all decide) "O2"⟩

/-- Witness for C9 at a concrete input: constructing from a dictionary
holding only "reactants" appends the default oxidizer entry. -/
theorem C9_witness :
    [("reactants", PyVal.mix [("N2", 1)]), ("oxidizer", O2default)] =
        [("reactants", PyVal.mix [("N2", 1)])] ++ [("oxidizer", O2default)] ∧
      ¬ [("reactants", PyVal.mix [("N2", 1)]), ("oxidizer", O2default)] =
        [("reactants", PyVal.mix [("N2", 1)])] ∧
      (∀ k, ¬ k = "oxidizer" →
        DictV.get [("reactants", PyVal.mix [("N2", 1)]), ("oxidizer", O2default)] k =
          DictV.get [("reactants", PyVal.mix [("N2", 1)])] k) ∧
      DictV.get [("reactants", PyVal.mix [("N2", 1)]), ("oxidizer", O2default)] "oxidizer" =
        some O2default :=
  C9_fromDictionary_mutates [("reactants", PyVal.mix [("N2", 1)])]
    ([("N2", 1)], "O2") [("reactants", PyVal.mix [("N2", 1)]), ("oxidizer", O2default)]
    (by decide) (by decide) (by with_unfolding_all rfl)


set_option maxHeartbeats 1000000 in
theorem gaussSolve3 (a b p q : ℚ) (ha : a ≠ 0) (hb : b ≠ 0)
    (hd : p * b + q * a ≠ 0) :
    gaussSolve [[a, 0, -p], [0, b, -q], [1, 1, 0]] [0, 0, 1] =
      some [p * b / (p * b + q * a), q * a / (p * b + q * a),
            a * b / (p * b + q * a)] := by
  unfold gaussSolve
  rw [show ([[a, 0, -p], [0, b, -q], [1, 1, 0]] : List (List ℚ)).length = 2 + 1 from rfl]
  simp only [gaussSolveAux]
  rw [if_neg ha]
  dsimp only [List.zip, List.zipWith, List.map, List.tail, List.headD, List.zipWithAll]
  rw [show b - 0 / a * 0 = b from by ring]
  rw [if_neg hb]
  rw [show (0 : ℚ) - 1 / a * -p - (1 - 1 / a * 0) / b * (-q - 0 / a * -p) = p / a + q / b from by
    field_simp
    ring]
  have hpq : p / a + q / b ≠ 0 := by
    rw [div_add_div _ _ ha hb]
    exact div_ne_zero (by rw [show p * b + q * a = p * b + a * q from by ring] at hd; exact hd)
      (mul_ne_zero ha hb)
  rw [if_neg hpq]
  dsimp only
  simp only [dotQ]
  simp only [Option.some.injEq, List.cons.injEq, and_true]
  refine ⟨?_, ?_, ?_⟩ <;> field_simp <;> ring

theorem C5_two_fuel_blend (cfg : Config) (r : Mixture) (f1 f2 : Specie) (r1 r2 : Reaction)
    (hfuels : updateFuels cfg r = [f1, f2])
    (hne : ¬ f1 = f2)
    (h1 : findOxReaction cfg f1 = some r1)
    (h2 : findOxReaction cfg f2 = some r2)
    (ha : 0 < Mixture.X r1.reactants f1)
    (hb : 0 < Mixture.X r2.reactants f2)
    (hp : 0 ≤ Mixture.X (Mixture.extract r (updateFuels cfg r)) f1)
    (hq : 0 ≤ Mixture.X (Mixture.extract r (updateFuels cfg r)) f2)
    (hsum : Mixture.X (Mixture.extract r (updateFuels cfg r)) f1 +
        Mixture.X (Mixture.extract r (updateFuels cfg r)) f2 = 1) :
    lookupOxReactions cfg (updateFuels cfg r) = .ok [(f1, r1), (f2, r2)] ∧
    ∃ c1 c2 fv,
      gaussSolve (buildM (updateFuels cfg r) [(f1, r1), (f2, r2)]
          (Mixture.extract r (updateFuels cfg r)))
        (buildV (updateFuels cfg r)) = some [c1, c2, fv] ∧
      0 ≤ c1 ∧ c1 ≤ 1 ∧ 0 ≤ c2 ∧ c2 ≤ 1 ∧ c1 + c2 = 1 ∧
      ∀ s, Mixture.X (rawStoichProds (updateFuels cfg r) [(f1, r1), (f2, r2)]
          [c1, c2, fv]) s =
        c1 * Mixture.X r1.products s + c2 * Mixture.X r2.products s := by
  rw [hfuels] at hp hq hsum ⊢
  set p := Mixture.X (Mixture.extract r [f1, f2]) f1 with hpdef
  set q := Mixture.X (Mixture.extract r [f1, f2]) f2 with hqdef
  set a := Mixture.X r1.reactants f1 with hadef
  set b := Mixture.X r2.reactants f2 with hbdef
  constructor
  · simp only [lookupOxReactions, h1, h2]
  have hden : 0 < p * b + q * a := by
    rcases lt_or_eq_of_le hp with hp1 | hp1
    · have h3 := mul_pos hp1 hb
      have h4 := mul_nonneg hq ha.le
      linarith
    · have hq1 : q = 1 := by linarith
      rw [← hp1, hq1]
      simpa using ha
  have hM : buildM [f1, f2] [(f1, r1), (f2, r2)] (Mixture.extract r [f1, f2]) =
      [[a, 0, -p], [0, b, -q], [1, 1, 0]] := by
    simp [buildM, oxFor, List.find?, hne, List.enum]
  have hV : buildV [f1, f2] = [0, 0, 1] := rfl
  have hmap : ([f1, f2].map (fun f => (oxFor [(f1, r1), (f2, r2)] f).products)) =
      [r1.products, r2.products] := by
    simp [oxFor, List.find?, hne]
  refine ⟨p * b / (p * b + q * a), q * a / (p * b + q * a), a * b / (p * b + q * a),
    ?_, ?_, ?_, ?_, ?_, ?_, ?_⟩
  · rw [hM, hV]
    exact gaussSolve3 a b p q (ne_of_gt ha) (ne_of_gt hb) (ne_of_gt hden)
  · exact div_nonneg (mul_nonneg hp hb.le) hden.le
  · rw [div_le_one hden]
    have h4 := mul_nonneg hq ha.le
    linarith
  · exact div_nonneg (mul_nonneg hq ha.le) hden.le
  · rw [div_le_one hden]
    have h4 := mul_nonneg hp hb.le
    linarith
  · rw [div_add_div_same, div_self (ne_of_gt hden)]
  · intro s
    unfold rawStoichProds
    rw [show ([p * b / (p * b + q * a), q * a / (p * b + q * a),
        a * b / (p * b + q * a)] : List ℚ).dropLast =
      [p * b / (p * b + q * a), q * a / (p * b + q * a)] from rfl]
    rw [hmap]
    rw [show ([r1.products, r2.products].zip
        [p * b / (p * b + q * a), q * a / (p * b + q * a)]) =
      [(r1.products, p * b / (p * b + q * a)), (r2.products, q * a / (p * b + q * a))] from rfl]
    rw [mixtureBlend_X]
    simp


/-- Witness for C5 at a concrete input: a methane/hydrogen/oxygen mixture
with fuel-only blend (1/2, 1/2) against the two registered reactions. -/
theorem C5_witness :
    lookupOxReactions cfgTest
        (updateFuels cfgTest [("CH4", 1/6), ("H2", 1/6), ("O2", 2/3)]) =
      .ok [("CH4", rCH4), ("H2", rH2)] ∧
    ∃ c1 c2 fv,
      gaussSolve (buildM (updateFuels cfgTest [("CH4", 1/6), ("H2", 1/6), ("O2", 2/3)])
          [("CH4", rCH4), ("H2", rH2)]
          (Mixture.extract [("CH4", 1/6), ("H2", 1/6), ("O2", 2/3)]
            (updateFuels cfgTest [("CH4", 1/6), ("H2", 1/6), ("O2", 2/3)])))
        (buildV (updateFuels cfgTest [("CH4", 1/6), ("H2", 1/6), ("O2", 2/3)])) =
        some [c1, c2, fv] ∧
      0 ≤ c1 ∧ c1 ≤ 1 ∧ 0 ≤ c2 ∧ c2 ≤ 1 ∧ c1 + c2 = 1 ∧
      ∀ s, Mixture.X (rawStoichProds
          (updateFuels cfgTest [("CH4", 1/6), ("H2", 1/6), ("O2", 2/3)])
          [("CH4", rCH4), ("H2", rH2)] [c1, c2, fv]) s =
        c1 * Mixture.X rCH4.products s + c2 * Mixture.X rH2.products s :=
  C5_two_fuel_blend cfgTest [("CH4", 1/6), ("H2", 1/6), ("O2", 2/3)] "CH4" "H2" rCH4 rH2
    (by rfl) (by decide) (by rfl) (by rfl)
    (by with_unfolding_all decide) (by with_unfolding_all decide)
    (by with_unfolding_all decide) (by with_unfolding_all decide)
    (by with_unfolding_all decide)

end LibICE
